import Mathlib

/-!
Verification development for the Access Parser Server (Node/Express).

The definitions below are a shallow embedding of the server's source
(`server.js`, chunked-upload revision).  JavaScript numbers are idealized as
rationals (`ℚ`); strings are Lean `String`s (lists of characters); fallible
operations return `Option`; the mutable server registries (chunk sessions,
chunk files, assembled files, file-session cache) are modelled as explicit
state records, with request handlers as state-transition functions.
Wall-clock time (keep-alive timestamps, TTL expiry) is outside the model.
-/

/-- A JavaScript value as it can appear in a raw table row: `null`,
`undefined`, a number, a string, or a boolean.  (Numbers are idealized as
exact rationals; `NaN` and the dyadic rounding of IEEE doubles are outside
the model.) -/
inductive JValue where
  | jnull
  | jundefined
  | jnum (q : ℚ)
  | jstr (s : String)
  | jbool (b : Bool)
deriving DecidableEq

/-- JavaScript truthiness test (`!v`): `null`, `undefined`, `0`, `""` and
`false` are falsy. -/
def jsFalsy : JValue → Bool
  | .jnull => true
  | .jundefined => true
  | .jnum q => decide (q = 0)
  | .jstr s => decide (s = "")
  | .jbool b => !b

/-- Removes factors of `p` from `n` (with fuel): returns `(k, m)` such that
`n = p ^ k * m` with `p` not dividing `m`. -/
def stripFactorAux (p : Nat) : Nat → Nat → Nat × Nat
  | 0, n => (0, n)
  | fuel + 1, n =>
    if 2 ≤ p ∧ n ≠ 0 ∧ n % p = 0 then
      let r := stripFactorAux p fuel (n / p)
      (r.1 + 1, r.2)
    else (0, n)

/-- Decimal rendering of a rational whose denominator divides a power of ten,
mirroring JavaScript `Number`-to-string conversion on exactly representable
decimal values (the only values our claims exercise).  A rational whose
denominator has a prime factor other than 2 and 5 is not the idealization of
any finite decimal; such values get a placeholder rendering.  Scientific
notation for extreme magnitudes is not modelled. -/
def numToString (q : ℚ) : String :=
  let den := q.den
  let r2 := stripFactorAux 2 den den
  let r5 := stripFactorAux 5 r2.2 r2.2
  if r5.2 = 1 then
    let k := max r2.1 r5.1
    let scaled := q.num.natAbs * (10 ^ k / den)
    let sign := if q.num < 0 then "-" else ""
    if k = 0 then sign ++ Nat.repr scaled
    else
      let s := Nat.repr scaled
      let s := if s.length ≤ k then String.mk (List.replicate (k + 1 - s.length) '0') ++ s else s
      sign ++ (s.take (s.length - k)) ++ "." ++ (s.drop (s.length - k))
  else "NaR"

/-- JavaScript `String(v)` conversion. -/
def jsToString : JValue → String
  | .jnull => "null"
  | .jundefined => "undefined"
  | .jnum q => numToString q
  | .jstr s => s
  | .jbool true => "true"
  | .jbool false => "false"

/-- ASCII lower-casing of one character (the fragment of JavaScript
`toLowerCase` relevant here: every mapping key and type/status token in the
source is already lower case or ASCII). -/
def jsToLowerChar (c : Char) : Char :=
  if 'A' ≤ c ∧ c ≤ 'Z' then Char.ofNat (c.toNat + 32) else c

/-- JavaScript `toLowerCase()` (ASCII fragment). -/
def jsToLower (s : String) : String :=
  String.mk (s.data.map jsToLowerChar)

/-- Whitespace characters removed by JavaScript `trim()` (ASCII fragment). -/
def isJsWhitespace (c : Char) : Bool :=
  c == ' ' || c == '\t' || c == '\n' || c == '\r'

/-- JavaScript `trim()`: drop leading and trailing whitespace. -/
def jsTrim (s : String) : String :=
  String.mk (((s.data.dropWhile isJsWhitespace).reverse.dropWhile isJsWhitespace).reverse)

/-- JavaScript `hay.includes(pat)`: substring test. -/
def strContains (hay pat : String) : Bool :=
  hay.data.tails.any (fun t => pat.data.isPrefixOf t)

/-- Numeric value of a list of decimal digit characters (most significant
first); empty list gives 0. -/
def digitsVal (ds : List Char) : Nat :=
  ds.foldl (fun n c => 10 * n + (c.toNat - 48)) 0

/-- JavaScript `parseFloat` on the character alphabet reachable inside
`parseNumber` (digits, `.`, `-`; `+` is also handled).  Exponent notation
cannot occur because the caller has already stripped every letter:
a longest valid prefix `[sign] digits [. digits]` is parsed, `NaN` is
`none`. -/
def jsParseFloatChars (cs : List Char) : Option ℚ :=
  let signRest : Bool × List Char :=
    match cs with
    | '-' :: t => (true, t)
    | '+' :: t => (false, t)
    | t => (false, t)
  let rest := signRest.2
  let intDs := rest.takeWhile Char.isDigit
  let rest2 := rest.dropWhile Char.isDigit
  let fracDs :=
    match rest2 with
    | '.' :: t => t.takeWhile Char.isDigit
    | _ => []
  if intDs.isEmpty && fracDs.isEmpty then none
  else
    let mag : ℚ := (digitsVal intDs : ℚ) + (digitsVal fracDs : ℚ) / ((10 : ℚ) ^ fracDs.length)
    some (if signRest.1 then -mag else mag)

/-- JavaScript `str.replace(',', '.')`: replace the first comma only. -/
def replaceFirstComma : List Char → List Char
  | [] => []
  | c :: cs => if c = ',' then '.' :: cs else c :: replaceFirstComma cs

/-- Characters kept by the strip regex `[^\d.-]` of `parseNumber`. -/
def isNumericChar (c : Char) : Bool :=
  c.isDigit || c == '.' || c == '-'

/-- `parseNumber` from the source: `null`/`undefined` map to `null`; an
already-numeric value is returned unchanged; any other value is stringified,
its first comma replaced with a period, every character that is not a digit,
period, or minus sign stripped, then parsed with `parseFloat`; a failed
parse yields `null`. -/
def parseNumber (val : JValue) : Option ℚ :=
  match val with
  | .jnull => none
  | .jundefined => none
  | .jnum q => some q
  | v =>
    let str := (replaceFirstComma (jsToString v).data).filter isNumericChar
    jsParseFloatChars str

/-- Truncation of a rational toward zero (ECMAScript `TimeClip` integer
coercion of a millisecond time value). -/
def ratTrunc (q : ℚ) : Int :=
  if 0 ≤ q then Int.floor q else Int.ceil q

/-- Civil calendar date from a count of days since 1970-01-01 (proleptic
Gregorian), returning `(year, month, day)`. -/
def civilFromDays (z0 : Int) : Int × Int × Int :=
  let z := Int.fdiv (z0 + 719468) 146097
  let doe := ((z0 + 719468) - z * 146097).toNat
  let yoe := (doe - doe / 1460 + doe / 36524 - doe / 146096) / 365
  let doy := doe - (365 * yoe + yoe / 4 - yoe / 100)
  let mp := (5 * doy + 2) / 153
  let d := doy - (153 * mp + 2) / 5 + 1
  let m := if mp < 10 then mp + 3 else mp - 9
  let y : Int := (yoe : Int) + z * 400 + (if m ≤ 2 then 1 else 0)
  (y, (m : Int), (d : Int))

/-- Zero-padded two-digit decimal rendering. -/
def pad2 (n : Nat) : String :=
  if n < 10 then "0" ++ Nat.repr n else Nat.repr n

/-- Zero-padded decimal rendering to at least `w` digits. -/
def padTo (w n : Nat) : String :=
  let s := Nat.repr n
  String.mk (List.replicate (w - s.length) '0') ++ s

/-- The calendar-date part of `Date.prototype.toISOString` output:
`YYYY-MM-DD`, with the expanded `±YYYYYY` form outside years 0–9999. -/
def formatIsoDate (y m d : Int) : String :=
  let mmdd := "-" ++ pad2 m.toNat ++ "-" ++ pad2 d.toNat
  if 0 ≤ y ∧ y ≤ 9999 then padTo 4 y.toNat ++ mmdd
  else if y < 0 then "-" ++ padTo 6 (-y).toNat ++ mmdd
  else "+" ++ padTo 6 y.toNat ++ mmdd

/-- ISO calendar date of a millisecond epoch value (`new Date(ms)` followed
by `toISOString().split('T')[0]`); out-of-range time values give an invalid
date, hence `none`. -/
def msToIsoDate (ms : Int) : Option String :=
  if 8640000000000000 < ms.natAbs then none
  else
    let c := civilFromDays (Int.fdiv ms 86400000)
    some (formatIsoDate c.1 c.2.1 c.2.2)

/-- Leap-year test (proleptic Gregorian). -/
def isLeap (y : Nat) : Bool :=
  decide ((y % 4 = 0 ∧ y % 100 ≠ 0) ∨ y % 400 = 0)

/-- Number of days in a month. -/
def daysInMonth (y m : Nat) : Nat :=
  if m = 2 then (if isLeap y then 29 else 28)
  else if m = 4 ∨ m = 6 ∨ m = 9 ∨ m = 11 then 30 else 31

/-- Parsing of a date-only string `YYYY-MM-DD` (the normative, engine- and
timezone-independent subset of `new Date(string)`; strings with a time
component or non-ISO layouts are engine/timezone dependent and are modelled
as unparseable).  A valid date-only string round-trips through
`toISOString().split('T')[0]` unchanged. -/
def isoDateOnlyParse (s : String) : Option String :=
  match s.data with
  | [a, b, c, d, s1, e, f, s2, g, h] =>
    if a.isDigit ∧ b.isDigit ∧ c.isDigit ∧ d.isDigit ∧ s1 = '-'
        ∧ e.isDigit ∧ f.isDigit ∧ s2 = '-' ∧ g.isDigit ∧ h.isDigit then
      let mo := digitsVal [e, f]
      let da := digitsVal [g, h]
      if 1 ≤ mo ∧ mo ≤ 12 ∧ 1 ≤ da ∧ da ≤ daysInMonth (digitsVal [a, b, c, d]) mo
      then some s else none
    else none
  | _ => none

/-- `parseDate` from the source: falsy values give `null`; otherwise
`new Date(val)` is taken and, when valid, normalized to an ISO calendar date
(`YYYY-MM-DD`), discarding time-of-day; invalid dates give `null`. -/
def parseDate (val : JValue) : Option String :=
  if jsFalsy val then none
  else
    match val with
    | .jstr s => isoDateOnlyParse s
    | .jnum q => msToIsoDate (ratTrunc q)
    | .jbool _ => msToIsoDate 1
    | .jnull => none
    | .jundefined => none

/-- `wellsColumnMappings` from the source (raw lower-cased label → canonical
wells field name), in source order. -/
def wellsColumnMappings : List (String × String) :=
  [("nome", "name"), ("nome do poço", "name"), ("poço", "name"), ("poco", "name"),
   ("bloco", "block"),
   ("campo", "field"), ("campo petrolífero", "field"),
   ("província", "province"), ("provincia", "province"),
   ("latitude", "latitude"), ("lat", "latitude"),
   ("longitude", "longitude"), ("long", "longitude"), ("lng", "longitude"),
   ("profundidade", "depth"), ("depth", "depth"),
   ("tipo", "type"), ("type", "type"), ("tipo de hidrocarboneto", "type"),
   ("reservas", "estimated_reserves"), ("reservas estimadas", "estimated_reserves"),
   ("estimated_reserves", "estimated_reserves"),
   ("produção diária", "daily_production"), ("producao diaria", "daily_production"),
   ("produção", "daily_production"), ("daily_production", "daily_production"),
   ("data de início", "production_start_date"), ("data inicio", "production_start_date"),
   ("início produção", "production_start_date"),
   ("production_start_date", "production_start_date"),
   ("status", "status"), ("estado", "status"),
   ("taxa de declínio", "decline_rate"), ("declínio", "decline_rate"),
   ("decline_rate", "decline_rate")]

/-- `productionColumnMappings` from the source, in source order. -/
def productionColumnMappings : List (String × String) :=
  [("wlbr_id", "wlbr_id"), ("wellbore_id", "wlbr_id"), ("id do poço", "wlbr_id"),
   ("wlbr_nm", "wlbr_nm"), ("wellbore_name", "wlbr_nm"), ("nome do poço", "wlbr_nm"),
   ("wellbore name", "wlbr_nm"),
   ("cmpl_id", "cmpl_id"), ("completion_id", "cmpl_id"),
   ("daytime", "production_date"), ("date", "production_date"),
   ("data", "production_date"), ("data produção", "production_date"),
   ("oil", "oil_volume"), ("óleo", "oil_volume"), ("petroleo", "oil_volume"),
   ("petróleo", "oil_volume"),
   ("water", "water_volume"), ("água", "water_volume"), ("agua", "water_volume"),
   ("gas", "gas_volume"), ("gás", "gas_volume"),
   ("glg", "glg"), ("gas lift", "glg"),
   ("hours", "hours_produced"), ("horas", "hours_produced"),
   ("choke", "choke_size"),
   ("bhp", "bhp"), ("bht", "bht"), ("whp", "whp"), ("wht", "wht"), ("chp", "chp")]

/-- `normalizeColumnName` from the source: lower-case and trim the raw
label, then translate it through the mapping table of the given data type;
unknown labels pass through (lower-cased, trimmed). -/
def normalizeColumnName (name : String) (dataType : String) : String :=
  let normalized := jsTrim (jsToLower name)
  let mappings := if dataType = "production" then productionColumnMappings else wellsColumnMappings
  (mappings.lookup normalized).getD normalized

/-- `normalizeType` from the source. -/
def normalizeType (val : JValue) : String :=
  if jsFalsy val then ""
  else
    let normalized := jsTrim (jsToLower (jsToString val))
    if normalized = "petróleo" ∨ normalized = "petroleo" ∨ normalized = "oil" then "oil"
    else if normalized = "gás" ∨ normalized = "gas" then "gas"
    else if normalized = "misto" ∨ normalized = "mixed" then "mixed"
    else jsToString val

/-- `normalizeStatus` from the source. -/
def normalizeStatus (val : JValue) : String :=
  if jsFalsy val then ""
  else
    let normalized := jsTrim (jsToLower (jsToString val))
    if normalized = "ativo" ∨ normalized = "active" then "active"
    else if normalized = "inativo" ∨ normalized = "inactive" then "inactive"
    else if normalized = "exploratório" ∨ normalized = "exploratorio" ∨ normalized = "exploratory"
      then "exploratory"
    else if normalized = "declínio" ∨ normalized = "declining" ∨ normalized = "em declínio"
      then "declining"
    else jsToString val

/-- The `mapped` object of the row parsers: `mapped[normalizeColumnName(col)]
= row[col]` assigned left to right, so a later column mapping to the same
canonical key overwrites an earlier one; a key no column maps to reads as
`undefined`.  A raw row is modelled as a total function from column name to
value (`undefined` standing for an absent property). -/
def getMapped (row : String → JValue) (columns : List String) (dataType key : String) : JValue :=
  match (columns.filter (fun c => normalizeColumnName c dataType == key)).getLast? with
  | some c => row c
  | none => JValue.jundefined

/-- The `original` object of the row parsers: the raw column → value map. -/
def mkOriginal (row : String → JValue) (columns : List String) : List (String × JValue) :=
  columns.map (fun c => (c, row c))

/-- JavaScript `x || 0` applied to a `number | null` value. -/
def jsOrZero : Option ℚ → ℚ
  | none => 0
  | some q => if q = 0 then 0 else q

/-- A validated wells record (the `data` object built by `parseWellsRow`). -/
structure WellData where
  name : String
  block : String
  field : String
  province : String
  latitude : ℚ
  longitude : ℚ
  depth : ℚ
  type : String
  estimated_reserves : ℚ
  daily_production : ℚ
  production_start_date : Option String
  status : String
  decline_rate : ℚ
deriving DecidableEq

/-- A validated production record (the `data` object built by
`parseProductionRow`). -/
structure ProductionData where
  wlbr_id : String
  wlbr_nm : Option String
  cmpl_id : Option String
  production_date : String
  oil_volume : ℚ
  water_volume : ℚ
  gas_volume : ℚ
  glg : ℚ
  hours_produced : ℚ
  choke_size : ℚ
  bhp : ℚ
  bht : ℚ
  whp : ℚ
  wht : ℚ
  chp : ℚ
deriving DecidableEq

/-- The typed record carried by a successful row outcome. -/
inductive RecordData where
  | wells (w : WellData)
  | production (p : ProductionData)
deriving DecidableEq

/-- The result of validating one raw row: 1-based row number, an optional
typed record, the ordered list of validation error messages, and the
preserved original column → value map. -/
structure RowOutcome where
  row : Nat
  data : Option RecordData
  errors : List String
  original : List (String × JValue)
deriving DecidableEq

/-- The shared tail of both row parsers (the final `if errors.length === 0`
branch): emit the record with an empty error list, or no record with the
collected errors. -/
def mkOutcome (rowIndex : Nat) (errors : List String) (record : RecordData)
    (original : List (String × JValue)) : RowOutcome :=
  if errors = [] then { row := rowIndex + 1, data := some record, errors := [], original := original }
  else { row := rowIndex + 1, data := none, errors := errors, original := original }

/-- `parseWellsRow` from the source. -/
def parseWellsRow (row : String → JValue) (columns : List String) (rowIndex : Nat) : RowOutcome :=
  let mapped := fun k => getMapped row columns "wells" k
  let latitude := parseNumber (mapped "latitude")
  let longitude := parseNumber (mapped "longitude")
  let depth := parseNumber (mapped "depth")
  let type := normalizeType (mapped "type")
  let status := normalizeStatus (mapped "status")
  let errors : List String :=
    (if jsFalsy (mapped "name") then ["Nome do poço é obrigatório"] else [])
    ++ (if jsFalsy (mapped "block") then ["Bloco é obrigatório"] else [])
    ++ (if jsFalsy (mapped "field") then ["Campo é obrigatório"] else [])
    ++ (if jsFalsy (mapped "province") then ["Província é obrigatória"] else [])
    ++ (if (match latitude with | none => true | some q => decide (q < -90) || decide (90 < q))
        then ["Latitude inválida"] else [])
    ++ (if (match longitude with | none => true | some q => decide (q < -180) || decide (180 < q))
        then ["Longitude inválida"] else [])
    ++ (if (match depth with | none => true | some q => decide (q < 0))
        then ["Profundidade inválida"] else [])
    ++ (if type = "oil" ∨ type = "gas" ∨ type = "mixed" then []
        else ["Tipo deve ser: petróleo, gás ou misto"])
    ++ (if status = "active" ∨ status = "inactive" ∨ status = "exploratory" ∨ status = "declining"
        then [] else ["Status deve ser: ativo, inativo, exploratório ou declínio"])
  mkOutcome rowIndex errors
    (.wells
      { name := jsToString (mapped "name")
        block := jsToString (mapped "block")
        field := jsToString (mapped "field")
        province := jsToString (mapped "province")
        latitude := latitude.getD 0
        longitude := longitude.getD 0
        depth := depth.getD 0
        type := type
        estimated_reserves := jsOrZero (parseNumber (mapped "estimated_reserves"))
        daily_production := jsOrZero (parseNumber (mapped "daily_production"))
        production_start_date := parseDate (mapped "production_start_date")
        status := status
        decline_rate := jsOrZero (parseNumber (mapped "decline_rate")) })
    (mkOriginal row columns)

/-- `parseProductionRow` from the source. -/
def parseProductionRow (row : String → JValue) (columns : List String) (rowIndex : Nat) : RowOutcome :=
  let mapped := fun k => getMapped row columns "production" k
  let wlbrId := mapped "wlbr_id"
  let productionDate := parseDate (mapped "production_date")
  let errors : List String :=
    (if jsFalsy wlbrId then ["Wellbore ID é obrigatório"] else [])
    ++ (if productionDate.isNone then ["Data de produção é obrigatória"] else [])
  mkOutcome rowIndex errors
    (.production
      { wlbr_id := jsToString wlbrId
        wlbr_nm := if jsFalsy (mapped "wlbr_nm") then none else some (jsToString (mapped "wlbr_nm"))
        cmpl_id := if jsFalsy (mapped "cmpl_id") then none else some (jsToString (mapped "cmpl_id"))
        production_date := productionDate.getD ""
        oil_volume := jsOrZero (parseNumber (mapped "oil_volume"))
        water_volume := jsOrZero (parseNumber (mapped "water_volume"))
        gas_volume := jsOrZero (parseNumber (mapped "gas_volume"))
        glg := jsOrZero (parseNumber (mapped "glg"))
        hours_produced := jsOrZero (parseNumber (mapped "hours_produced"))
        choke_size := jsOrZero (parseNumber (mapped "choke_size"))
        bhp := jsOrZero (parseNumber (mapped "bhp"))
        bht := jsOrZero (parseNumber (mapped "bht"))
        whp := jsOrZero (parseNumber (mapped "whp"))
        wht := jsOrZero (parseNumber (mapped "wht"))
        chp := jsOrZero (parseNumber (mapped "chp")) })
    (mkOriginal row columns)

/-- The fixed production indicator set of `detectDataType`, in source order. -/
def productionIndicators : List String :=
  ["oil", "gas", "water", "daytime", "wlbr_id", "cmpl_id", "bhp", "whp", "choke"]

/-- The fixed wells indicator set of `detectDataType`, in source order. -/
def wellIndicators : List String :=
  ["latitude", "longitude", "block", "field", "province", "poço", "poco", "bloco", "campo"]

/-- `detectDataType` from the source: lower-case the column names, count the
production and wells indicators that occur as a substring of some column
name, and classify as `production` exactly when the production count
strictly exceeds the wells count, defaulting to `wells`. -/
def detectDataType (columns : List String) : String :=
  let normalized := columns.map (fun c => jsToLower c)
  let productionMatches :=
    (productionIndicators.filter (fun ind => normalized.any (fun col => strContains col ind))).length
  let wellMatches :=
    (wellIndicators.filter (fun ind => normalized.any (fun col => strContains col ind))).length
  if productionMatches > wellMatches then "production" else "wells"

/-- Stated directly from the claim's words: the number of production
indicators appearing as a substring of some lower-cased column name. -/
def productionMatchCount (columns : List String) : Nat :=
  (productionIndicators.filter (fun ind => columns.any (fun col => strContains (jsToLower col) ind))).length

/-- Stated directly from the claim's words: the number of wells indicators
appearing as a substring of some lower-cased column name. -/
def wellsMatchCount (columns : List String) : Nat :=
  (wellIndicators.filter (fun ind => columns.any (fun col => strContains (jsToLower col) ind))).length

/-- Dispatch on the detected data type, as done per row by the
`/parse-table-batch` and `/parse-table` handlers. -/
def parseRowOf (dataType : String) (row : String → JValue) (columns : List String)
    (globalIndex : Nat) : RowOutcome :=
  if dataType = "production" then parseProductionRow row columns globalIndex
  else parseWellsRow row columns globalIndex

/-- The row loop of `/parse-table-batch`: validate each sliced row at its
global index `offset + localIndex`. -/
def parsePageRows (dataType : String) (columns : List String) :
    List (String → JValue) → Nat → List RowOutcome
  | [], _ => []
  | r :: rs, gi => parseRowOf dataType r columns gi :: parsePageRows dataType columns rs (gi + 1)

/-- The JSON body returned by `/parse-table-batch`. -/
structure BatchResult where
  tableName : String
  columns : List String
  dataType : String
  totalRows : Nat
  offset : Nat
  limit : Nat
  rows : List RowOutcome
  hasMore : Bool

/-- The data path of the `/parse-table-batch` handler, after the session and
file checks: take the in-memory slice `[offset, offset+limit)` of the full
row set, detect the data type once, validate each sliced row, and report
`hasMore` by comparing against the table's declared row count. -/
def parseTableBatch (allData : List (String → JValue)) (columns : List String)
    (tableName : String) (rowCountMeta : Nat) (offset limit : Nat) : BatchResult :=
  let sliced := (allData.drop offset).take limit
  let dataType := detectDataType columns
  { tableName := tableName
    columns := columns
    dataType := dataType
    totalRows := rowCountMeta
    offset := offset
    limit := limit
    rows := parsePageRows dataType columns sliced offset
    hasMore := decide (offset + sliced.length < rowCountMeta) }

/-- Raw file contents (a byte sequence, abstracted). -/
abbrev Bytes := List Nat

/-- An in-flight chunked upload registered in `chunkSessions`
(`uploadId → { filename, totalChunks, size }`; the on-disk chunk directory
is keyed by the same uploadId, and the keep-alive timestamp is outside the
model). -/
structure ChunkSession where
  filename : String
  totalChunks : Option ℚ
  size : Option ℚ
deriving DecidableEq

/-- A completed-file session registered in `fileCache`
(`sessionId → { filePath, filename }`; timestamp outside the model). -/
structure FileSession where
  filePath : String
  filename : String
deriving DecidableEq

/-- The server's shared mutable state: the chunk-session registry, the
per-upload chunk files (`uploadId, index → bytes`), the uploads directory
(assembled files by name), and the file-session cache. -/
structure ServerState where
  chunkSessions : String → Option ChunkSession
  chunkFiles : String → Nat → Option Bytes
  files : String → Option Bytes
  fileCache : String → Option FileSession

/-- Pointwise update of a map modelled as a function. -/
def updF {β : Type} (f : String → β) (a : String) (b : β) : String → β :=
  fun x => if x = a then b else f x

/-- JavaScript falsiness of a `number | null` field (`!session.totalChunks`). -/
def jsFalsyOptQ : Option ℚ → Bool
  | none => true
  | some q => decide (q = 0)

/-- Result of a `/upload-chunk` request (status codes abstracted). -/
inductive ChunkResult where
  | badRequest
  | notFound
  | ok
deriving DecidableEq

/-- The `/upload-chunk` handler: validate uploadId / index / totalChunks,
look up the session, adopt `totalChunks` when the session has none yet, and
write the chunk idempotently (an already-present chunk file is kept).
Chunk indices are modelled as naturals: a non-integer index would be stored
under a file name that assembly never reads.  The request body size limit
and the keep-alive timestamp refresh are outside the model. -/
def uploadChunk (st : ServerState) (uploadId : String) (index : Nat) (totalChunks : ℚ)
    (chunkBytes : Bytes) : ServerState × ChunkResult :=
  if uploadId = "" then (st, .badRequest)
  else if ¬ (0 < totalChunks) then (st, .badRequest)
  else
    match st.chunkSessions uploadId with
    | none => (st, .notFound)
    | some sess =>
      let sess' := if jsFalsyOptQ sess.totalChunks
        then { sess with totalChunks := some totalChunks } else sess
      let st' := { st with chunkSessions := updF st.chunkSessions uploadId (some sess') }
      if (st.chunkFiles uploadId index).isSome then (st', .ok)
      else
        ({ st' with chunkFiles :=
            fun v j => if v = uploadId ∧ j = index then some chunkBytes else st.chunkFiles v j },
         .ok)

/-- The loop of `assembleChunksSync`: starting at index `i` with `remaining`
iterations left, append each chunk's bytes to the accumulator; on the first
missing chunk, fail with that index, returning also the bytes already
written to the (truncated, partially written) output file. -/
def assembleGo (get : Nat → Option Bytes) : Nat → Nat → Bytes → Except (Nat × Bytes) Bytes
  | 0, _, acc => .ok acc
  | remaining + 1, i, acc =>
    match get i with
    | none => .error (i, acc)
    | some b => assembleGo get remaining (i + 1) (acc ++ b)

/-- Number of loop iterations of `for (let i = 0; i < totalChunks; i++)`
with a (possibly fractional) numeric bound. -/
def natCeilQ (t : ℚ) : Nat := (Int.ceil t).toNat

/-- `assembleChunksSync` from the source, as a function of the upload's
chunk store: concatenate chunks `0, 1, …` in ascending index order while
`i < totalChunks`; a missing chunk aborts with `Chunk ausente: i` after the
preceding chunks were already written. -/
def assembleChunksSync (get : Nat → Option Bytes) (totalChunks : ℚ) : Except (Nat × Bytes) Bytes :=
  assembleGo get (natCeilQ totalChunks) 0 []

/-- Result of a `/upload-complete` request. -/
inductive CompleteResult where
  | sessionNotFound
  | invalidTotal
  | incomplete (missingIndex : Nat)
  | ok (sessionId : String)
deriving DecidableEq

/-- The `/upload-complete` handler: look up the session, validate
`totalChunks`, open (truncate) the output file and assemble the chunks into
it; on success remove the chunk directory and the chunk session and register
a fresh file session; on a missing chunk fail with `IncompleteUpload`,
leaving the partially written output file on disk but registering nothing.
The fresh session id is a parameter (`generateSessionId` is random), and the
subsequent table listing is delegated to the external reader, outside the
model. -/
def uploadComplete (st : ServerState) (uploadId sid : String) : ServerState × CompleteResult :=
  if uploadId = "" then (st, .sessionNotFound)
  else
    match st.chunkSessions uploadId with
    | none => (st, .sessionNotFound)
    | some sess =>
      let t := sess.totalChunks.getD 0
      if 0 < t then
        let finalName := uploadId ++ "-" ++ sess.filename
        match assembleChunksSync (st.chunkFiles uploadId) t with
        | .error e =>
          ({ st with files := updF st.files finalName (some e.2) }, .incomplete e.1)
        | .ok assembled =>
          ({ chunkSessions := updF st.chunkSessions uploadId none
             chunkFiles := fun v j => if v = uploadId then none else st.chunkFiles v j
             files := updF st.files finalName (some assembled)
             fileCache := updF st.fileCache sid
               (some { filePath := finalName, filename := sess.filename }) },
           .ok sid)
      else (st, .invalidTotal)

/-- Submit a list of chunk indices in order, each with its assigned content,
all for the same upload and the same declared total. -/
def submitChunks (u : String) (t : ℚ) (contents : Nat → Bytes) :
    ServerState → List Nat → ServerState
  | st, [] => st
  | st, i :: rest => submitChunks u t contents (uploadChunk st u i t (contents i)).1 rest

/-- Result of the session/file lookup prefix of `/parse-table-batch`. -/
inductive BatchCheck where
  | noTable
  | noSession
  | fileMissing
  | okFile (path : String)
deriving DecidableEq

/-- The session handling of the `/parse-table-batch` handler: reject a
missing table name, an unknown session, and a session whose backing file is
absent from disk.  The keep-alive timestamp refresh is outside the model;
note that no branch removes anything from the file-session cache. -/
def parseTableBatchCheck (st : ServerState) (sessionId tableName : String) :
    ServerState × BatchCheck :=
  if tableName = "" then (st, .noTable)
  else if sessionId = "" then (st, .noSession)
  else
    match st.fileCache sessionId with
    | none => (st, .noSession)
    | some cached =>
      if cached.filePath = "" then (st, .fileMissing)
      else
        match st.files cached.filePath with
        | none => (st, .fileMissing)
        | some _ => (st, .okFile cached.filePath)

/-- Result of the file-source resolution of `/parse-table`. -/
inductive TableSource where
  | noTable
  | fileMissing
  | cachedFile (path : String)
  | uploadedFile
  | noFile
deriving DecidableEq

/-- The file-source resolution of the `/parse-table` handler: prefer the
cached session file (failing if its backing file is gone from disk), fall
back to a directly uploaded file, else fail.  The temp-file cleanup of the
fallback path and the timestamp refresh are outside the model; no branch
removes anything from the file-session cache. -/
def parseTableCheck (st : ServerState) (sessionId : String) (hasFile : Bool)
    (tableName : String) : ServerState × TableSource :=
  if tableName = "" then (st, .noTable)
  else
    match (if sessionId = "" then none else st.fileCache sessionId) with
    | some cached =>
      if cached.filePath = "" then (st, .fileMissing)
      else
        match st.files cached.filePath with
        | none => (st, .fileMissing)
        | some _ => (st, .cachedFile cached.filePath)
    | none => if hasFile then (st, .uploadedFile) else (st, .noFile)

/-- Stated directly from the spec's words (numeric coercion contract):
replace the FIRST comma with a period, here located with `dropWhile` /
`takeWhile` instead of the source's character recursion. -/
def replaceFirstCommaSpec (s : List Char) : List Char :=
  match s.dropWhile (fun c => !(c == ',')) with
  | [] => s
  | _ :: t => s.takeWhile (fun c => !(c == ',')) ++ '.' :: t

/-- Stated directly from the spec's words: `null`/`undefined` → null;
already-numeric → unchanged; otherwise stringify, replace the first comma
with a period, strip every character that is not a digit, period, or minus
sign, then parse as floating point; unparseable → null. -/
def parseNumberSpec (val : JValue) : Option ℚ :=
  match val with
  | .jnull => none
  | .jundefined => none
  | .jnum q => some q
  | v =>
    jsParseFloatChars
      ((replaceFirstCommaSpec (jsToString v).data).filter
        (fun c => c.isDigit || decide (c = '.') || decide (c = '-')))

/-- The state reached after submitting, for upload `u` with declared total
`t`, every chunk index in `S` with content `contents i`, starting from a
state whose session `sess` has no declared total and no chunk yet. -/
def afterSubmit (st : ServerState) (u : String) (sess : ChunkSession) (t : ℚ)
    (contents : Nat → Bytes) (S : List Nat) : ServerState :=
  { chunkSessions := updF st.chunkSessions u
      (some { sess with totalChunks := if S.isEmpty then none else some t })
    chunkFiles := fun v j =>
      if v = u then (if j ∈ S then some (contents j) else none) else st.chunkFiles v j
    files := st.files
    fileCache := st.fileCache }

/-- Concrete columns for the wells counterexample row. -/
def c6cols : List String :=
  ["nome", "bloco", "campo", "provincia", "latitude", "longitude",
   "profundidade", "tipo", "status", "reservas"]

/-- Concrete raw row: all required wells fields valid, but the reserves
column carries the parseable negative value "-5". -/
def c6row : String → JValue := fun c =>
  if c = "nome" then .jstr "P1"
  else if c = "bloco" then .jstr "B1"
  else if c = "campo" then .jstr "C1"
  else if c = "provincia" then .jstr "PR"
  else if c = "latitude" then .jstr "10"
  else if c = "longitude" then .jstr "10"
  else if c = "profundidade" then .jstr "100"
  else if c = "tipo" then .jstr "oil"
  else if c = "status" then .jstr "active"
  else if c = "reservas" then .jstr "-5"
  else .jundefined

/-- The record `parseWellsRow` emits for `c6row`: note the negative
`estimated_reserves`. -/
def c6rec : WellData :=
  { name := "P1", block := "B1", field := "C1", province := "PR"
    latitude := 10, longitude := 10, depth := 100, type := "oil"
    estimated_reserves := -5, daily_production := 0
    production_start_date := none, status := "active", decline_rate := 0 }

/-- Concrete server state with one file session whose backing file is
missing from disk. -/
def c9state : ServerState :=
  { chunkSessions := fun _ => none
    chunkFiles := fun _ _ => none
    files := fun _ => none
    fileCache := fun s => if s = "sess1" then some { filePath := "gone", filename := "f" } else none }

/-- Concrete chunk session for the incomplete-upload scenario: two chunks
declared. -/
def sessW : ChunkSession := { filename := "f.accdb", totalChunks := some 2, size := none }

/-- Concrete server state for the incomplete-upload scenario: chunk 0 is
present, chunk 1 is missing. -/
def stW : ServerState :=
  { chunkSessions := fun u => if u = "u" then some sessW else none
    chunkFiles := fun u i => if u = "u" ∧ i = 0 then some [7] else none
    files := fun _ => none
    fileCache := fun _ => none }

/-- Concrete chunk session with no declared total, for the submission-order
scenario. -/
def sess3 : ChunkSession := { filename := "w.accdb", totalChunks := none, size := none }

/-- Concrete pristine server state holding only `sess3` under uploadId
`"u"`. -/
def st3 : ServerState :=
  { chunkSessions := fun u => if u = "u" then some sess3 else none
    chunkFiles := fun _ _ => none
    files := fun _ => none
    fileCache := fun _ => none }

/-- Concrete one-row table for the pagination witness. -/
def c8data : List (String → JValue) := [fun _ => JValue.jundefined]

/-- Concrete chunk contents for the submission-order witness: chunk `i`
holds the single byte `i`. -/
def c3contents : Nat → Bytes := fun i => [i]

theorem jsOrZero_eq_getD (o : Option ℚ) : jsOrZero o = o.getD 0 := by
  cases o with
  | none => rfl
  | some q =>
    by_cases hq : q = 0
    · simp [jsOrZero, hq]
    · simp [jsOrZero, hq]

theorem mkOutcome_data_iff (i : Nat) (errs : List String) (r : RecordData)
    (o : List (String × JValue)) :
    ((mkOutcome i errs r o).data ≠ none ↔ (mkOutcome i errs r o).errors = []) := by
  unfold mkOutcome
  split
  · simp_all
  · simp_all

theorem mkOutcome_row (i : Nat) (errs : List String) (r : RecordData)
    (o : List (String × JValue)) : (mkOutcome i errs r o).row = i + 1 := by
  unfold mkOutcome
  split <;> rfl

theorem mkOutcome_data_some (i : Nat) (errs : List String) (r r' : RecordData)
    (o : List (String × JValue)) : (mkOutcome i errs r o).data = some r' → r' = r := by
  unfold mkOutcome
  split <;> intro h <;> simp_all

/-- C1: for every raw row, column list and row index, the row outcome of
`parseWellsRow` and of `parseProductionRow` has a record exactly when its
error list is empty — never both populated, never both empty. -/
theorem c1_record_errors_exclusive :
    ∀ (row : String → JValue) (columns : List String) (rowIndex : Nat),
      ((parseWellsRow row columns rowIndex).data ≠ none
        ↔ (parseWellsRow row columns rowIndex).errors = [])
      ∧ ((parseProductionRow row columns rowIndex).data ≠ none
        ↔ (parseProductionRow row columns rowIndex).errors = []) := by
  intro row columns rowIndex
  constructor
  · simp only [parseWellsRow]
    exact mkOutcome_data_iff _ _ _ _
  · simp only [parseProductionRow]
    exact mkOutcome_data_iff _ _ _ _

theorem replaceFirstComma_eq_spec (cs : List Char) :
    replaceFirstComma cs = replaceFirstCommaSpec cs := by
  induction cs with
  | nil => rfl
  | cons c cs ih =>
    by_cases hc : c = ','
    · simp [replaceFirstComma, replaceFirstCommaSpec, hc]
    · have hbeq : (c == ',') = false := by simp [hc]
      simp only [replaceFirstComma, replaceFirstCommaSpec, List.dropWhile_cons,
        List.takeWhile_cons, hbeq, Bool.not_false, if_neg hc, if_pos] at ih ⊢
      cases hd : List.dropWhile (fun c => !(c == ',')) cs with
      | nil => simp_all [replaceFirstCommaSpec, hd]
      | cons x t => simp_all [replaceFirstCommaSpec, hd]

theorem isNumericChar_eq_spec (c : Char) :
    isNumericChar c = (c.isDigit || decide (c = '.') || decide (c = '-')) := by
  have e1 : (c == '.') = decide (c = '.') := by
    by_cases h : c = '.'
    · subst h; rfl
    · rw [beq_eq_false_iff_ne.mpr h, decide_eq_false h]
  have e2 : (c == '-') = decide (c = '-') := by
    by_cases h : c = '-'
    · subst h; rfl
    · rw [beq_eq_false_iff_ne.mpr h, decide_eq_false h]
  unfold isNumericChar
  rw [e1, e2]

/-- C4: the numeric coercion `parseNumber` satisfies the spec's contract
verbatim — `null`/`undefined` map to null, numbers pass through unchanged,
and anything else is stringified, its first comma replaced with a period,
non-numeric characters stripped, and the result parsed as floating point,
with a failed parse yielding null (`parseNumberSpec` is the contract stated
from the spec's words). -/
theorem c4_parse_number_contract : ∀ v : JValue, parseNumber v = parseNumberSpec v := by
  intro v
  have hf : ∀ l : List Char,
      l.filter isNumericChar
        = l.filter (fun c => c.isDigit || decide (c = '.') || decide (c = '-')) := by
    intro l
    apply List.filter_congr
    intro c _
    exact isNumericChar_eq_spec c
  cases v <;> simp [parseNumber, parseNumberSpec, replaceFirstComma_eq_spec, hf]

unseal Rat.add Rat.mul Rat.inv Rat.sub Rat.ofScientific in
/-- C5 counterexample: on the locale-formatted input `"1.234,56"` the coercion
returns 1.234 — the comma becomes a second period and `parseFloat` stops
before it — not the value 1234.56 that treating the comma as the decimal
separator would give. -/
theorem c5_counterexample :
    parseNumber (.jstr "1.234,56") = some ((617 : ℚ) / 500)
    ∧ parseNumber (.jstr "1.234,56") ≠ some ((123456 : ℚ) / 100) := by
  decide

unseal Rat.add Rat.mul Rat.inv Rat.sub Rat.ofScientific in
/-- C5 (amended): numeric coercion is the identity on already-numeric values,
and on `"1.234,56"` it returns 1.234: the first comma is turned into a
period, the pre-existing period is kept, and `parseFloat` reads the longest
valid prefix `"1.234"`, discarding the digits after the former comma. -/
theorem c5_amended :
    (∀ q : ℚ, parseNumber (.jnum q) = some q)
    ∧ parseNumber (.jstr "1.234,56") = some ((617 : ℚ) / 500) :=
  ⟨fun _ => rfl, by decide⟩

unseal Rat.add Rat.mul Rat.inv Rat.sub Rat.ofScientific in
/-- C6 counterexample: a row that passes every wells validation but carries
the parseable value "-5" in its reserves column produces a record with
`estimated_reserves = -5 < 0`. -/
theorem c6_counterexample :
    (parseWellsRow c6row c6cols 0).data = some (RecordData.wells c6rec)
    ∧ c6rec.estimated_reserves < 0 := by
  decide

/-- C6 (amended): every record emitted by `parseWellsRow` has
`estimated_reserves` and `daily_production` equal to the coerced source
value with default 0 when the source is absent, unparseable, or zero
(`x || 0` agrees with `Option.getD 0`); the values are not guaranteed
non-negative — a parseable negative source passes through. -/
theorem c6_amended :
    ∀ (row : String → JValue) (columns : List String) (rowIndex : Nat) (w : WellData),
      (parseWellsRow row columns rowIndex).data = some (RecordData.wells w) →
      w.estimated_reserves
          = (parseNumber (getMapped row columns "wells" "estimated_reserves")).getD 0
      ∧ w.daily_production
          = (parseNumber (getMapped row columns "wells" "daily_production")).getD 0 := by
  intro row columns rowIndex w h
  simp only [parseWellsRow] at h
  have := mkOutcome_data_some _ _ _ _ _ h
  cases this
  constructor
  · exact jsOrZero_eq_getD _
  · exact jsOrZero_eq_getD _

unseal Rat.add Rat.mul Rat.inv Rat.sub Rat.ofScientific in
/-- C6 amended witness: the amended statement applied at the concrete row
`c6row`. -/
theorem c6_amended_witness :
    (parseWellsRow c6row c6cols 0).data = some (RecordData.wells c6rec)
    ∧ (c6rec.estimated_reserves
        = (parseNumber (getMapped c6row c6cols "wells" "estimated_reserves")).getD 0
      ∧ c6rec.daily_production
        = (parseNumber (getMapped c6row c6cols "wells" "daily_production")).getD 0) :=
  ⟨by decide, c6_amended c6row c6cols 0 c6rec (by decide)⟩

/-- C7: the type detector classifies as `production` exactly when the count
of production indicators occurring as a substring of some lower-cased column
name strictly exceeds the wells indicator count, and classifies as `wells`
otherwise; in particular `["oil","water","daytime","wlbr_id"]` is
`production`, `["latitude","longitude","block","field"]` is `wells`, and the
empty column list is `wells`. -/
theorem c7_detect_data_type :
    (∀ columns : List String,
        (detectDataType columns = "production"
          ↔ productionMatchCount columns > wellsMatchCount columns)
        ∧ (detectDataType columns = "production" ∨ detectDataType columns = "wells"))
    ∧ detectDataType ["oil", "water", "daytime", "wlbr_id"] = "production"
    ∧ detectDataType ["latitude", "longitude", "block", "field"] = "wells"
    ∧ detectDataType [] = "wells" := by
  refine ⟨?_, by decide, by decide, by decide⟩
  intro columns
  simp only [detectDataType, productionMatchCount, wellsMatchCount, List.any_map,
    Function.comp_def]
  constructor
  · split
    · simp_all
    · simp_all
  · split
    · exact Or.inl rfl
    · exact Or.inr rfl

theorem parseRowOf_row (dataType : String) (row : String → JValue) (columns : List String)
    (globalIndex : Nat) : (parseRowOf dataType row columns globalIndex).row = globalIndex + 1 := by
  unfold parseRowOf parseProductionRow parseWellsRow
  split
  · exact mkOutcome_row _ _ _ _
  · exact mkOutcome_row _ _ _ _

theorem parsePageRows_length (dataType : String) (columns : List String) :
    ∀ (rs : List (String → JValue)) (gi : Nat),
      (parsePageRows dataType columns rs gi).length = rs.length := by
  intro rs
  induction rs with
  | nil => intro gi; rfl
  | cons r rest ih => intro gi; simp [parsePageRows, ih]

theorem parsePageRows_get? (dataType : String) (columns : List String) :
    ∀ (rs : List (String → JValue)) (gi i : Nat),
      (parsePageRows dataType columns rs gi).get? i
        = (rs.get? i).map (fun r => parseRowOf dataType r columns (gi + i)) := by
  intro rs
  induction rs with
  | nil => intro gi i; simp [parsePageRows]
  | cons r rest ih =>
    intro gi i
    cases i with
    | zero => simp [parsePageRows]
    | succ j =>
      have harith : gi + 1 + j = gi + (j + 1) := by omega
      simp only [parsePageRows, List.get?]
      rw [ih (gi + 1) j, harith]

/-- C8: for every table, offset and positive limit, the page returned by the
`/parse-table-batch` data path consists of exactly the validated rows of the
in-memory slice `[offset, offset+limit)`, the outcome at local position `i`
carries the 1-based row number `offset + i + 1`, and `hasMore` holds exactly
when `offset + returnedRowCount < totalRows`. -/
theorem c8_parse_table_batch :
    ∀ (allData : List (String → JValue)) (columns : List String) (tableName : String)
      (rowCountMeta offset limit : Nat), 0 < limit →
      ((parseTableBatch allData columns tableName rowCountMeta offset limit).rows.length
          = min limit (allData.length - offset))
      ∧ (∀ i r, i < limit → allData.get? (offset + i) = some r →
          (parseTableBatch allData columns tableName rowCountMeta offset limit).rows.get? i
            = some (parseRowOf (detectDataType columns) r columns (offset + i)))
      ∧ (∀ i o,
          (parseTableBatch allData columns tableName rowCountMeta offset limit).rows.get? i
            = some o → o.row = offset + i + 1)
      ∧ ((parseTableBatch allData columns tableName rowCountMeta offset limit).hasMore = true
          ↔ offset
              + (parseTableBatch allData columns tableName rowCountMeta offset limit).rows.length
              < rowCountMeta) := by
  intro allData columns tableName rowCountMeta offset limit _
  refine ⟨?_, ?_, ?_, ?_⟩
  · simp [parseTableBatch, parsePageRows_length]
  · intro i r hil hget
    simp only [parseTableBatch]
    rw [parsePageRows_get?]
    have htake : (((allData.drop offset).take limit).get? i) = (allData.drop offset).get? i :=
      List.get?_take hil
    rw [htake, List.get?_drop, hget]
    rfl
  · intro i o h
    simp only [parseTableBatch] at h
    rw [parsePageRows_get?] at h
    obtain ⟨r, _, rfl⟩ := Option.map_eq_some'.mp h
    exact parseRowOf_row _ _ _ _
  · simp [parseTableBatch, parsePageRows_length]

/-- C8 witness: the pagination contract applied to a concrete one-row table
with `offset = 0`, `limit = 5`. -/
theorem c8_witness :
    0 < 5
    ∧ (((parseTableBatch c8data ["a"] "t" 1 0 5).rows.length = min 5 (c8data.length - 0))
      ∧ (∀ i r, i < 5 → c8data.get? (0 + i) = some r →
          (parseTableBatch c8data ["a"] "t" 1 0 5).rows.get? i
            = some (parseRowOf (detectDataType ["a"]) r ["a"] (0 + i)))
      ∧ (∀ i o, (parseTableBatch c8data ["a"] "t" 1 0 5).rows.get? i = some o →
          o.row = 0 + i + 1)
      ∧ ((parseTableBatch c8data ["a"] "t" 1 0 5).hasMore = true
          ↔ 0 + (parseTableBatch c8data ["a"] "t" 1 0 5).rows.length < 1)) :=
  ⟨by decide, c8_parse_table_batch c8data ["a"] "t" 1 0 5 (by decide)⟩

theorem assembleGo_error_exists (get : Nat → Option Bytes) :
    ∀ (r s : Nat) (acc : Bytes),
      (∃ e, assembleGo get r s acc = .error e) ↔ ∃ j, s ≤ j ∧ j < s + r ∧ get j = none := by
  intro r
  induction r with
  | zero =>
    intro s acc
    constructor
    · rintro ⟨e, he⟩
      exact absurd he (by simp [assembleGo])
    · rintro ⟨j, h1, h2, _⟩
      omega
  | succ r ih =>
    intro s acc
    cases hg : get s with
    | none =>
      constructor
      · intro _
        exact ⟨s, le_refl s, by omega, hg⟩
      · intro _
        exact ⟨(s, acc), by simp [assembleGo, hg]⟩
    | some b =>
      have hstep : assembleGo get (r + 1) s acc = assembleGo get r (s + 1) (acc ++ b) := by
        simp [assembleGo, hg]
      rw [hstep]
      constructor
      · intro he
        obtain ⟨j, h1, h2, h3⟩ := (ih (s + 1) (acc ++ b)).mp he
        exact ⟨j, by omega, by omega, h3⟩
      · rintro ⟨j, h1, h2, h3⟩
        have hjs : j ≠ s := by
          intro hj
          rw [hj, hg] at h3
          exact Option.noConfusion h3
        exact (ih (s + 1) (acc ++ b)).mpr ⟨j, by omega, by omega, h3⟩

theorem assembleGo_error_least (get : Nat → Option Bytes) :
    ∀ (r s : Nat) (acc : Bytes) (i : Nat) (w : Bytes),
      assembleGo get r s acc = .error (i, w) →
      get i = none ∧ s ≤ i ∧ i < s + r ∧ ∀ j, s ≤ j → j < i → get j ≠ none := by
  intro r
  induction r with
  | zero =>
    intro s acc i w h
    exact absurd h (by simp [assembleGo])
  | succ r ih =>
    intro s acc i w h
    cases hg : get s with
    | none =>
      rw [show assembleGo get (r + 1) s acc = .error (s, acc) by simp [assembleGo, hg]] at h
      obtain ⟨hi, hw⟩ : s = i ∧ acc = w := by
        have := Except.error.inj h
        exact ⟨congrArg Prod.fst this, congrArg Prod.snd this⟩
      subst hi
      exact ⟨hg, le_refl s, by omega, fun j h1 h2 => absurd (lt_of_lt_of_le h2 h1) (lt_irrefl j)⟩
    | some b =>
      rw [show assembleGo get (r + 1) s acc = assembleGo get r (s + 1) (acc ++ b) by
        simp [assembleGo, hg]] at h
      obtain ⟨h1, h2, h3, h4⟩ := ih (s + 1) (acc ++ b) i w h
      refine ⟨h1, by omega, by omega, ?_⟩
      intro j hj1 hj2
      rcases Nat.eq_or_lt_of_le hj1 with hj | hj
      · rw [← hj, hg]
        exact fun hc => Option.noConfusion hc
      · exact h4 j hj hj2

theorem assembleGo_ok_all (get : Nat → Option Bytes) (contents : Nat → Bytes) :
    ∀ (r s : Nat) (acc : Bytes),
      (∀ j, j < r → get (s + j) = some (contents (s + j))) →
      assembleGo get r s acc = .ok (acc ++ ((List.range' s r).map contents).flatten) := by
  intro r
  induction r with
  | zero =>
    intro s acc _
    simp [assembleGo]
  | succ r ih =>
    intro s acc h
    have hs : get s = some (contents s) := by
      have := h 0 (by omega)
      simpa using this
    rw [show assembleGo get (r + 1) s acc = assembleGo get r (s + 1) (acc ++ contents s) by
      simp [assembleGo, hs]]
    rw [ih (s + 1) (acc ++ contents s) (fun j hj => by
      have := h (j + 1) (by omega)
      rw [show s + (j + 1) = s + 1 + j by omega] at this
      exact this)]
    rw [List.range'_succ]
    simp

theorem lt_natCeilQ_iff (t : ℚ) (j : Nat) : j < natCeilQ t ↔ (j : ℚ) < t := by
  unfold natCeilQ
  rw [Int.lt_toNat]
  constructor
  · intro h
    have h2 : (j : ℤ) < Int.ceil t := h
    have := Int.lt_ceil.mp h2
    simpa using this
  · intro h
    have : ((j : ℤ) : ℚ) < t := by simpa using h
    exact Int.lt_ceil.mpr this

theorem uploadComplete_eq (st : ServerState) (u sid : String) (sess : ChunkSession)
    (hu : u ≠ "") (hs : st.chunkSessions u = some sess)
    (ht : 0 < sess.totalChunks.getD 0) :
    uploadComplete st u sid =
      match assembleChunksSync (st.chunkFiles u) (sess.totalChunks.getD 0) with
      | .error e =>
        ({ st with files := updF st.files (u ++ "-" ++ sess.filename) (some e.2) },
         .incomplete e.1)
      | .ok assembled =>
        ({ chunkSessions := updF st.chunkSessions u none
           chunkFiles := fun v j => if v = u then none else st.chunkFiles v j
           files := updF st.files (u ++ "-" ++ sess.filename) (some assembled)
           fileCache := updF st.fileCache sid
             (some { filePath := u ++ "-" ++ sess.filename, filename := sess.filename }) },
         .ok sid) := by
  unfold uploadComplete
  rw [if_neg hu, hs]
  simp only [if_pos ht]

/-- C2: provided the uploadId is registered and its declared total is valid,
`/upload-complete` fails with `IncompleteUpload` exactly when some chunk
index in `[0, totalChunks)` has no chunk file; the index named in the error
is the lowest missing index; and on such a failure the file-session cache is
unchanged — no session is registered for the partially written output
file. -/
theorem c2_complete_incomplete :
    ∀ (st : ServerState) (uploadId sid : String) (sess : ChunkSession),
      uploadId ≠ "" → st.chunkSessions uploadId = some sess →
      0 < sess.totalChunks.getD 0 →
      ((∃ i, (uploadComplete st uploadId sid).2 = .incomplete i)
          ↔ ∃ j : Nat, (j : ℚ) < sess.totalChunks.getD 0 ∧ st.chunkFiles uploadId j = none)
      ∧ ∀ i, (uploadComplete st uploadId sid).2 = .incomplete i →
          (st.chunkFiles uploadId i = none
            ∧ (i : ℚ) < sess.totalChunks.getD 0
            ∧ ∀ j, j < i → st.chunkFiles uploadId j ≠ none)
          ∧ (uploadComplete st uploadId sid).1.fileCache = st.fileCache := by
  intro st u sid sess hu hs ht
  rw [uploadComplete_eq st u sid sess hu hs ht]
  cases hA : assembleChunksSync (st.chunkFiles u) (sess.totalChunks.getD 0) with
  | error e =>
    obtain ⟨i0, w⟩ := e
    unfold assembleChunksSync at hA
    have hL := assembleGo_error_least (st.chunkFiles u) _ 0 [] i0 w hA
    constructor
    · constructor
      · intro _
        exact ⟨i0, (lt_natCeilQ_iff _ _).mp (by omega), hL.1⟩
      · intro _
        exact ⟨i0, rfl⟩
    · intro i hi
      have hii : i = i0 := CompleteResult.incomplete.inj hi.symm
      subst hii
      refine ⟨⟨hL.1, (lt_natCeilQ_iff _ _).mp (by omega), ?_⟩, rfl⟩
      intro j hj
      exact hL.2.2.2 j (Nat.zero_le j) hj
  | ok assembled =>
    unfold assembleChunksSync at hA
    constructor
    · constructor
      · rintro ⟨i, hi⟩
        exact absurd hi (by simp)
      · rintro ⟨j, hj1, hj2⟩
        exfalso
        obtain ⟨e, he⟩ := (assembleGo_error_exists (st.chunkFiles u)
          (natCeilQ (sess.totalChunks.getD 0)) 0 []).mpr
          ⟨j, Nat.zero_le j, by
            have := (lt_natCeilQ_iff (sess.totalChunks.getD 0) j).mpr hj1
            omega, hj2⟩
        rw [hA] at he
        exact Except.noConfusion he
    · intro i hi
      exact absurd hi (by simp)

unseal Rat.add Rat.mul Rat.inv Rat.sub Rat.ofScientific in
/-- C2 witness: the completion contract applied to the concrete state `stW`
(chunk 0 present, chunk 1 missing, two chunks declared). -/
theorem c2_witness :
    (("u" : String) ≠ "" ∧ stW.chunkSessions "u" = some sessW
      ∧ (0 : ℚ) < sessW.totalChunks.getD 0)
    ∧ (((∃ i, (uploadComplete stW "u" "s").2 = .incomplete i)
        ↔ ∃ j : Nat, (j : ℚ) < sessW.totalChunks.getD 0 ∧ stW.chunkFiles "u" j = none)
      ∧ ∀ i, (uploadComplete stW "u" "s").2 = .incomplete i →
          (stW.chunkFiles "u" i = none
            ∧ (i : ℚ) < sessW.totalChunks.getD 0
            ∧ ∀ j, j < i → stW.chunkFiles "u" j ≠ none)
          ∧ (uploadComplete stW "u" "s").1.fileCache = stW.fileCache) :=
  ⟨⟨by decide, by decide, by decide⟩,
   c2_complete_incomplete stW "u" "s" sessW (by decide) (by decide) (by decide)⟩

/-- C10: when `/upload-complete` fails because a chunk is missing, the
chunk-session registry and every chunk file are untouched — the client can
upload the missing chunks and retry completion on the same uploadId. -/
theorem c10_incomplete_preserves_upload :
    ∀ (st : ServerState) (uploadId sid : String) (i : Nat) (outSt : ServerState),
      uploadComplete st uploadId sid = (outSt, .incomplete i) →
      outSt.chunkSessions = st.chunkSessions ∧ outSt.chunkFiles = st.chunkFiles := by
  intro st u sid i outSt h
  unfold uploadComplete at h
  split at h
  · exact absurd (congrArg Prod.snd h) (by simp)
  · split at h
    · exact absurd (congrArg Prod.snd h) (by simp)
    · dsimp only at h
      split at h
      · split at h
        · have hfst := congrArg Prod.fst h
          simp only [Prod.fst] at hfst
          rw [← hfst]
          exact ⟨rfl, rfl⟩
        · exact absurd (congrArg Prod.snd h) (by simp)
      · exact absurd (congrArg Prod.snd h) (by simp)

unseal Rat.add Rat.mul Rat.inv Rat.sub Rat.ofScientific in
/-- C10 witness: the preservation statement applied to the concrete state
`stW`, whose completion fails with missing index 1. -/
theorem c10_witness :
    uploadComplete stW "u" "s" = ((uploadComplete stW "u" "s").1, .incomplete 1)
    ∧ ((uploadComplete stW "u" "s").1.chunkSessions = stW.chunkSessions
      ∧ (uploadComplete stW "u" "s").1.chunkFiles = stW.chunkFiles) := by
  have h2 : (uploadComplete stW "u" "s").2 = CompleteResult.incomplete 1 := by decide
  have hpair : uploadComplete stW "u" "s"
      = ((uploadComplete stW "u" "s").1, CompleteResult.incomplete 1) := by
    rw [← h2]
  exact ⟨hpair, c10_incomplete_preserves_upload stW "u" "s" 1 _ hpair⟩

/-- C9 counterexample: in `c9state` the session `"sess1"` points at the
missing file `"gone"`; both `/parse-table-batch` and `/parse-table` fail the
request, but the session is NOT purged — it is still in the file-session
cache afterwards, refuting the claim's purge clause. -/
theorem c9_counterexample :
    (parseTableBatchCheck c9state "sess1" "T").2 = .fileMissing
    ∧ (parseTableBatchCheck c9state "sess1" "T").1.fileCache "sess1" ≠ none
    ∧ (parseTableCheck c9state "sess1" false "T").2 = .fileMissing
    ∧ (parseTableCheck c9state "sess1" false "T").1.fileCache "sess1" ≠ none := by
  exact ⟨by decide, by decide, by decide, by decide⟩

/-- C9 (amended): for every file session whose backing file is missing from
disk, `/parse-table-batch` and `/parse-table` treat the session as invalid
and fail the request, but do NOT purge it — the file-session cache (and the
whole state, timestamps aside, which the model omits) is unchanged; the
stale entry is only removed later by TTL expiry or an explicit
`/clear-session`. -/
theorem c9_missing_file_fails_without_purge :
    ∀ (st : ServerState) (sid tableName : String) (sess : FileSession),
      tableName ≠ "" → sid ≠ "" → st.fileCache sid = some sess →
      st.files sess.filePath = none →
      ((parseTableBatchCheck st sid tableName).2 = .fileMissing
        ∧ (parseTableBatchCheck st sid tableName).1 = st)
      ∧ ∀ hasFile, (parseTableCheck st sid hasFile tableName).2 = .fileMissing
          ∧ (parseTableCheck st sid hasFile tableName).1 = st := by
  intro st sid tableName sess htn hsid hcache hfile
  constructor
  · unfold parseTableBatchCheck
    rw [if_neg htn, if_neg hsid, hcache]
    dsimp only
    by_cases hfp : sess.filePath = ""
    · rw [if_pos hfp]
      exact ⟨rfl, rfl⟩
    · rw [if_neg hfp, hfile]
      exact ⟨rfl, rfl⟩
  · intro hasFile
    unfold parseTableCheck
    rw [if_neg htn, if_neg hsid, hcache]
    dsimp only
    by_cases hfp : sess.filePath = ""
    · rw [if_pos hfp]
      exact ⟨rfl, rfl⟩
    · rw [if_neg hfp, hfile]
      exact ⟨rfl, rfl⟩

/-- C9 amended witness: the amended statement applied to the concrete state
`c9state`. -/
theorem c9_witness :
    (((parseTableBatchCheck c9state "sess1" "T").2 = .fileMissing
        ∧ (parseTableBatchCheck c9state "sess1" "T").1 = c9state)
      ∧ ∀ hasFile, (parseTableCheck c9state "sess1" hasFile "T").2 = .fileMissing
          ∧ (parseTableCheck c9state "sess1" hasFile "T").1 = c9state) :=
  c9_missing_file_fails_without_purge c9state "sess1" "T"
    { filePath := "gone", filename := "f" } (by decide) (by decide) (by decide) (by decide)

theorem ServerState.ext' (a b : ServerState)
    (h1 : a.chunkSessions = b.chunkSessions) (h2 : a.chunkFiles = b.chunkFiles)
    (h3 : a.files = b.files) (h4 : a.fileCache = b.fileCache) : a = b := by
  cases a
  cases b
  simp_all

theorem afterSubmit_nil (st : ServerState) (u : String) (sess : ChunkSession) (t : ℚ)
    (contents : Nat → Bytes) (hs : st.chunkSessions u = some sess)
    (htc : sess.totalChunks = none) (hcf : st.chunkFiles u = fun _ => none) :
    afterSubmit st u sess t contents [] = st := by
  apply ServerState.ext'
  · funext x
    unfold afterSubmit updF
    dsimp only
    by_cases hx : x = u
    · subst hx
      rw [if_pos rfl, hs]
      cases sess
      simp_all
    · rw [if_neg hx]
  · funext v j
    unfold afterSubmit
    dsimp only
    by_cases hv : v = u
    · subst hv
      rw [if_pos rfl]
      have := congrFun hcf j
      simp_all
    · rw [if_neg hv]
  · rfl
  · rfl

theorem uploadChunk_afterSubmit
    (st : ServerState) (u : String) (sess : ChunkSession) (t : ℚ) (contents : Nat → Bytes)
    (S : List Nat) (i : Nat) (hu : u ≠ "") (ht : 0 < t) :
    uploadChunk (afterSubmit st u sess t contents S) u i t (contents i)
      = (afterSubmit st u sess t contents (S ++ [i]), .ok) := by
  have htne : ¬ t = 0 := ne_of_gt ht
  unfold uploadChunk afterSubmit updF
  dsimp only
  rw [if_neg hu, if_neg (not_not_intro ht)]
  simp only [eq_self_iff_true, if_true]
  have hsess : (if jsFalsyOptQ (if S.isEmpty then none else some t) = true then
        { sess with totalChunks := some t }
      else { sess with totalChunks := if S.isEmpty then none else some t })
      = { sess with totalChunks := some t } := by
    cases hS : S.isEmpty
    · simp [jsFalsyOptQ, hS, htne]
    · simp [jsFalsyOptQ, hS]
  rw [hsess]
  have hisEmpty : ((S ++ [i]).isEmpty) = false := by simp
  by_cases hm : i ∈ S
  · rw [if_pos (by simp [hm] : ((if i ∈ S then some (contents i) else none)).isSome = true)]
    simp only [Prod.mk.injEq]
    refine ⟨?_, trivial⟩
    apply ServerState.ext' <;> dsimp only
    · funext x
      rw [hisEmpty]
      by_cases hx : x = u <;> simp [hx]
    · funext v j
      by_cases hv : v = u
      · subst hv
        simp only [eq_self_iff_true, if_true]
        by_cases hj : j ∈ S
        · rw [if_pos hj, if_pos (by simp [hj])]
        · rw [if_neg hj, if_neg (by
            intro hc
            rcases List.mem_append.mp hc with h | h
            · exact hj h
            · rw [List.mem_singleton] at h
              subst h
              exact hj hm)]
      · simp only [if_neg hv]
  · rw [if_neg (by simp [hm] : ¬ ((if i ∈ S then some (contents i) else none)).isSome = true)]
    simp only [Prod.mk.injEq]
    refine ⟨?_, trivial⟩
    apply ServerState.ext' <;> dsimp only
    · funext x
      rw [hisEmpty]
      by_cases hx : x = u <;> simp [hx]
    · funext v j
      by_cases hv : v = u
      · subst hv
        simp only [eq_self_iff_true, if_true, true_and]
        by_cases hj : j = i
        · subst hj
          rw [if_pos rfl, if_pos (by simp : j ∈ S ++ [j])]
        · rw [if_neg hj]
          by_cases hjS : j ∈ S
          · rw [if_pos hjS, if_pos (by simp [hjS])]
          · rw [if_neg hjS, if_neg (by simp [hjS, hj])]
      · rw [if_neg (by simp [hv] : ¬ (v = u ∧ j = i))]
        simp only [if_neg hv]

theorem submitChunks_afterSubmit
    (st : ServerState) (u : String) (sess : ChunkSession) (t : ℚ) (contents : Nat → Bytes)
    (hu : u ≠ "") (ht : 0 < t) :
    ∀ (L S : List Nat),
      submitChunks u t contents (afterSubmit st u sess t contents S) L
        = afterSubmit st u sess t contents (S ++ L) := by
  intro L
  induction L with
  | nil =>
    intro S
    simp [submitChunks]
  | cons i rest ih =>
    intro S
    unfold submitChunks
    rw [uploadChunk_afterSubmit st u sess t contents S i hu ht]
    dsimp only
    rw [ih (S ++ [i])]
    congr 1
    simp

theorem afterSubmit_perm
    (st : ServerState) (u : String) (sess : ChunkSession) (t : ℚ) (contents : Nat → Bytes)
    (L1 L2 : List Nat) (hp : L1.Perm L2) :
    afterSubmit st u sess t contents L1 = afterSubmit st u sess t contents L2 := by
  have hlen := hp.length_eq
  have hempty : L1.isEmpty = L2.isEmpty := by
    cases L1 <;> cases L2 <;> simp_all
  unfold afterSubmit
  rw [hempty]
  congr 1
  funext v j
  by_cases hv : v = u
  · subst hv
    simp only [eq_self_iff_true, if_true]
    by_cases hj : j ∈ L1
    · rw [if_pos hj, if_pos (hp.mem_iff.mp hj)]
    · rw [if_neg hj, if_neg (fun hc => hj (hp.mem_iff.mpr hc))]
  · simp only [if_neg hv]

theorem uploadComplete_afterSubmit_range
    (st : ServerState) (u sid : String) (sess : ChunkSession) (n : Nat)
    (contents : Nat → Bytes) (hu : u ≠ "") (hn : 0 < n) :
    (uploadComplete (afterSubmit st u sess (n : ℚ) contents (List.range n)) u sid).2 = .ok sid
    ∧ (uploadComplete (afterSubmit st u sess (n : ℚ) contents (List.range n)) u sid).1.files
        (u ++ "-" ++ sess.filename)
      = some (((List.range n).map contents).flatten) := by
  have hre : (List.range n).isEmpty = false := by
    cases n with
    | zero => omega
    | succ m => simp [List.range_succ]
  have hsessA : (afterSubmit st u sess (n : ℚ) contents (List.range n)).chunkSessions u
      = some { sess with totalChunks := some (n : ℚ) } := by
    unfold afterSubmit updF
    dsimp only
    rw [if_pos rfl, hre]
    rfl
  have hnq : (0 : ℚ)
      < ({ sess with totalChunks := some (n : ℚ) } : ChunkSession).totalChunks.getD 0 := by
    show (0 : ℚ) < (n : ℚ)
    exact_mod_cast hn
  have hceil : natCeilQ ((n : ℚ)) = n := by
    unfold natCeilQ
    rw [Int.ceil_natCast]
    exact Int.toNat_natCast n
  have hassemble :
      assembleChunksSync ((afterSubmit st u sess (n : ℚ) contents (List.range n)).chunkFiles u)
        (({ sess with totalChunks := some (n : ℚ) } : ChunkSession).totalChunks.getD 0)
      = .ok (((List.range n).map contents).flatten) := by
    show assembleChunksSync _ ((n : ℚ)) = _
    unfold assembleChunksSync
    rw [hceil]
    rw [assembleGo_ok_all ((afterSubmit st u sess (n : ℚ) contents (List.range n)).chunkFiles u)
      contents n 0 [] (by
        intro j hj
        unfold afterSubmit
        dsimp only
        rw [if_pos rfl, if_pos (by simpa [List.mem_range] using hj)])]
    rw [List.nil_append, ← List.range_eq_range']
  rw [uploadComplete_eq _ u sid _ hu hsessA hnq, hassemble]
  refine ⟨rfl, ?_⟩
  dsimp only
  unfold updF
  rw [if_pos rfl]

/-- C3: for a fixed assignment of chunk contents to indices `0..n-1`,
submitting the chunks in any order and then completing produces exactly the
same result — the same server state and response — as submitting them in
ascending order; and the assembled file is the concatenation of the chunk
contents in strict ascending index order. -/
theorem c3_submission_order_independent :
    ∀ (st : ServerState) (u sid : String) (sess : ChunkSession) (n : Nat)
      (contents : Nat → Bytes) (L : List Nat),
      u ≠ "" → st.chunkSessions u = some sess → sess.totalChunks = none →
      st.chunkFiles u = (fun _ => none) → 0 < n → L.Perm (List.range n) →
      uploadComplete (submitChunks u (n : ℚ) contents st L) u sid
        = uploadComplete (submitChunks u (n : ℚ) contents st (List.range n)) u sid
      ∧ (uploadComplete (submitChunks u (n : ℚ) contents st (List.range n)) u sid).2 = .ok sid
      ∧ (uploadComplete (submitChunks u (n : ℚ) contents st (List.range n)) u sid).1.files
          (u ++ "-" ++ sess.filename)
        = some (((List.range n).map contents).flatten) := by
  intro st u sid sess n contents L hu hs htc hcf hn hp
  have htq : (0 : ℚ) < (n : ℚ) := by exact_mod_cast hn
  have hsub : ∀ M : List Nat,
      submitChunks u (n : ℚ) contents st M = afterSubmit st u sess (n : ℚ) contents M := by
    intro M
    calc submitChunks u (n : ℚ) contents st M
        = submitChunks u (n : ℚ) contents (afterSubmit st u sess (n : ℚ) contents []) M := by
          rw [afterSubmit_nil st u sess (n : ℚ) contents hs htc hcf]
      _ = afterSubmit st u sess (n : ℚ) contents ([] ++ M) :=
          submitChunks_afterSubmit st u sess (n : ℚ) contents hu htq M []
      _ = afterSubmit st u sess (n : ℚ) contents M := by rw [List.nil_append]
  have hLrange : submitChunks u (n : ℚ) contents st L
      = submitChunks u (n : ℚ) contents st (List.range n) := by
    rw [hsub L, hsub (List.range n)]
    exact afterSubmit_perm st u sess (n : ℚ) contents L (List.range n) hp
  refine ⟨by rw [hLrange], ?_, ?_⟩
  · rw [hsub (List.range n)]
    exact (uploadComplete_afterSubmit_range st u sid sess n contents hu hn).1
  · rw [hsub (List.range n)]
    exact (uploadComplete_afterSubmit_range st u sid sess n contents hu hn).2

/-- C3 witness: the submission-order theorem applied to the concrete pristine
state `st3`, three one-byte chunks, and the out-of-order submission
`[2, 0, 1]`. -/
theorem c3_witness :
    (("u" : String) ≠ "" ∧ st3.chunkSessions "u" = some sess3 ∧ sess3.totalChunks = none
      ∧ st3.chunkFiles "u" = (fun _ => none) ∧ 0 < 3 ∧ List.Perm [2, 0, 1] (List.range 3))
    ∧ (uploadComplete (submitChunks "u" ((3 : Nat) : ℚ) c3contents st3 [2, 0, 1]) "u" "s"
        = uploadComplete (submitChunks "u" ((3 : Nat) : ℚ) c3contents st3 (List.range 3)) "u" "s"
      ∧ (uploadComplete (submitChunks "u" ((3 : Nat) : ℚ) c3contents st3 (List.range 3)) "u" "s").2
          = .ok "s"
      ∧ (uploadComplete (submitChunks "u" ((3 : Nat) : ℚ) c3contents st3 (List.range 3)) "u"
            "s").1.files ("u" ++ "-" ++ sess3.filename)
          = some (((List.range 3).map c3contents).flatten)) :=
  ⟨⟨by decide, rfl, rfl, rfl, by decide, by decide⟩,
   c3_submission_order_independent st3 "u" "s" sess3 3 c3contents [2, 0, 1]
     (by decide) rfl rfl rfl (by decide) (by decide)⟩
